import Mathlib

/-!
Verification of the in-memory room registry of `phira-mp-nodejsver`
(`src/src/domain/rooms/RoomManager.ts`, class `InMemoryRoomManager`).

JavaScript `Map` objects are embedded as association lists in insertion
order: `set` overwrites in place when the key is present and appends
otherwise, `delete` removes the entry, and iteration follows the list
order, exactly as a JS `Map` behaves.  Each mutating method of the class
becomes a function from the registry state to a result paired with the
new state; `createRoom`, which throws on a duplicate identifier, returns
`Except`.  The opaque imported types `UserInfo` and `RoomState` are type
parameters, and the ambient clock value consumed by `Date.now()` is an
explicit argument.
-/

namespace PhiraMP

/-- JS `Map.get`: the value stored at `k`, searching in insertion order. -/
def mget {K V : Type} [DecidableEq K] : List (K × V) → K → Option V
  | [], _ => none
  | (k', v) :: rest, k => if k' = k then some v else mget rest k

/-- JS `Map.set`: overwrite in place when `k` is present, append otherwise. -/
def mset {K V : Type} [DecidableEq K] : List (K × V) → K → V → List (K × V)
  | [], k, v => [(k, v)]
  | (k', v') :: rest, k, v =>
    if k' = k then (k, v) :: rest else (k', v') :: mset rest k v

/-- JS `Map.delete` (entry removal part): drop the entry stored at `k`. -/
def mdelete {K V : Type} [DecidableEq K] : List (K × V) → K → List (K × V)
  | [], _ => []
  | (k', v') :: rest, k => if k' = k then rest else (k', v') :: mdelete rest k

/-- Embedding of `PlayerInfo` from `RoomManager.ts`. -/
structure PlayerInfo (UserInfo : Type) where
  user : UserInfo
  connectionId : String
  isReady : Bool
deriving DecidableEq

/-- Embedding of `Room` from `RoomManager.ts`.  `players` is a JS `Map<number, PlayerInfo>`. -/
structure Room (UserInfo RoomState : Type) where
  id : String
  name : String
  ownerId : Int
  players : List (Int × PlayerInfo UserInfo)
  maxPlayers : Int
  password : Option String
  state : RoomState
  locked : Bool
  cycle : Bool
  live : Bool
  createdAt : Nat
deriving DecidableEq

/-- Embedding of `CreateRoomOptions` from `RoomManager.ts`. -/
structure CreateRoomOptions (UserInfo : Type) where
  id : String
  name : String
  ownerId : Int
  ownerInfo : UserInfo
  connectionId : String
  maxPlayers : Option Int := none
  password : Option String := none
deriving DecidableEq

/-- The private `rooms` map of `InMemoryRoomManager`: a JS `Map<string, Room>`. -/
abbrev Registry (UserInfo RoomState : Type) := List (String × Room UserInfo RoomState)

variable {UserInfo RoomState : Type}

/-- Embedding of `InMemoryRoomManager.createRoom`.  `initState` is the canonical initial
`RoomState` value (`{ state: 'SelectChart' }`) and `now` the `Date.now()`
reading.  Throwing is modelled by `Except.error`; the throw happens before
any mutation, so the error branch carries no new registry. -/
def createRoom (st : Registry UserInfo RoomState) (options : CreateRoomOptions UserInfo)
    (initState : RoomState) (now : Nat) :
    Except String (Room UserInfo RoomState × Registry UserInfo RoomState) :=
  if (mget st options.id).isSome then
    Except.error ("Room with id " ++ options.id ++ " already exists")
  else
    let players := mset ([] : List (Int × PlayerInfo UserInfo)) options.ownerId
      { user := options.ownerInfo, connectionId := options.connectionId, isReady := false }
    let room : Room UserInfo RoomState :=
      { id := options.id
        name := options.name
        ownerId := options.ownerId
        players := players
        maxPlayers := options.maxPlayers.getD 8
        password := options.password
        state := initState
        locked := false
        cycle := false
        live := true
        createdAt := now }
    Except.ok (room, mset st options.id room)

/-- The `Room` record literal built inside `createRoom`, as a standalone
abbreviation for stating lemmas. -/
def newRoom (options : CreateRoomOptions UserInfo) (initState : RoomState)
    (now : Nat) : Room UserInfo RoomState :=
  { id := options.id
    name := options.name
    ownerId := options.ownerId
    players := [(options.ownerId,
      { user := options.ownerInfo, connectionId := options.connectionId, isReady := false })]
    maxPlayers := options.maxPlayers.getD 8
    password := options.password
    state := initState
    locked := false
    cycle := false
    live := true
    createdAt := now }

/-- Embedding of `InMemoryRoomManager.getRoom`. -/
def getRoom (st : Registry UserInfo RoomState) (id : String) :
    Option (Room UserInfo RoomState) :=
  mget st id

/-- Embedding of `InMemoryRoomManager.deleteRoom`. -/
def deleteRoom (st : Registry UserInfo RoomState) (id : String) :
    Bool × Registry UserInfo RoomState :=
  if (mget st id).isSome then (true, mdelete st id) else (false, st)

/-- Embedding of `InMemoryRoomManager.listRooms`. -/
def listRooms (st : Registry UserInfo RoomState) : List (Room UserInfo RoomState) :=
  st.map Prod.snd

/-- Embedding of `InMemoryRoomManager.count`. -/
def count (st : Registry UserInfo RoomState) : Nat :=
  st.length

/-- Embedding of `InMemoryRoomManager.addPlayerToRoom`. -/
def addPlayerToRoom (st : Registry UserInfo RoomState) (roomId : String) (userId : Int)
    (userInfo : UserInfo) (connectionId : String) :
    Bool × Registry UserInfo RoomState :=
  match mget st roomId with
  | none => (false, st)
  | some room =>
    if (room.players.length : Int) ≥ room.maxPlayers then (false, st)
    else if room.locked then (false, st)
    else
      let room' := { room with
        players := mset room.players userId
          { user := userInfo, connectionId := connectionId, isReady := false } }
      (true, mset st roomId room')

/-- Embedding of `InMemoryRoomManager.changeRoomOwner`. -/
def changeRoomOwner (st : Registry UserInfo RoomState) (roomId : String)
    (newOwnerId : Int) : Bool × Registry UserInfo RoomState :=
  match mget st roomId with
  | none => (false, st)
  | some room =>
    if (mget room.players newOwnerId).isSome then
      (true, mset st roomId { room with ownerId := newOwnerId })
    else (false, st)

/-- Embedding of `InMemoryRoomManager.removePlayerFromRoom`.  In the source the `room`
object is mutated in place; the embedding writes the updated room back into
the registry before the size / owner checks, which is observationally the
same thing. -/
def removePlayerFromRoom (st : Registry UserInfo RoomState) (roomId : String)
    (userId : Int) : Bool × Registry UserInfo RoomState :=
  match mget st roomId with
  | none => (false, st)
  | some room =>
    if (mget room.players userId).isSome then
      let players' := mdelete room.players userId
      let room' := { room with players := players' }
      let st' := mset st roomId room'
      if players'.length = 0 then
        (true, (deleteRoom st' roomId).2)
      else if room.ownerId = userId then
        match (players'.map Prod.fst).head? with
        | some newOwner => (true, (changeRoomOwner st' roomId newOwner).2)
        | none => (true, st')
      else (true, st')
    else (false, st)

/-- Embedding of `InMemoryRoomManager.getRoomByUserId`: the `for … of this.rooms.values()`
loop, returning on the first room whose `players` map has `userId`. -/
def getRoomByUserId (st : Registry UserInfo RoomState) (userId : Int) :
    Option (Room UserInfo RoomState) :=
  match st with
  | [] => none
  | (_, room) :: rest =>
    if (mget room.players userId).isSome then some room
    else getRoomByUserId rest userId

/-- Embedding of `InMemoryRoomManager.setRoomState`. -/
def setRoomState (st : Registry UserInfo RoomState) (roomId : String)
    (state : RoomState) : Bool × Registry UserInfo RoomState :=
  match mget st roomId with
  | none => (false, st)
  | some room => (true, mset st roomId { room with state := state })

/-- Embedding of `InMemoryRoomManager.setRoomLocked`. -/
def setRoomLocked (st : Registry UserInfo RoomState) (roomId : String)
    (locked : Bool) : Bool × Registry UserInfo RoomState :=
  match mget st roomId with
  | none => (false, st)
  | some room => (true, mset st roomId { room with locked := locked })

/-- Embedding of `InMemoryRoomManager.setRoomCycle`. -/
def setRoomCycle (st : Registry UserInfo RoomState) (roomId : String)
    (cycle : Bool) : Bool × Registry UserInfo RoomState :=
  match mget st roomId with
  | none => (false, st)
  | some room => (true, mset st roomId { room with cycle := cycle })

/-- Embedding of `InMemoryRoomManager.setPlayerReady`. -/
def setPlayerReady (st : Registry UserInfo RoomState) (roomId : String)
    (userId : Int) (ready : Bool) : Bool × Registry UserInfo RoomState :=
  match mget st roomId with
  | none => (false, st)
  | some room =>
    match mget room.players userId with
    | none => (false, st)
    | some player =>
      (true, mset st roomId
        { room with players := mset room.players userId { player with isReady := ready } })

/-- Embedding of `InMemoryRoomManager.isRoomOwner`. -/
def isRoomOwner (st : Registry UserInfo RoomState) (roomId : String)
    (userId : Int) : Bool :=
  match mget st roomId with
  | none => false
  | some room => decide (room.ownerId = userId)

/-- Embedding of `InMemoryRoomManager.cleanupEmptyRooms`: collect the ids of rooms with an
empty `players` map, then delete each. -/
def cleanupEmptyRooms (st : Registry UserInfo RoomState) :
    Registry UserInfo RoomState :=
  let emptyRooms := (st.filter (fun p => p.2.players.length == 0)).map Prod.fst
  emptyRooms.foldl (fun s id => (deleteRoom s id).2) st

/-- One registry operation, for quantifying over call sequences.  The pure
queries (`getRoom`, `listRooms`, `count`, `getRoomByUserId`, `isRoomOwner`)
never change the registry and are omitted. -/
inductive Op (UserInfo RoomState : Type) where
  | createRoom (options : CreateRoomOptions UserInfo) (now : Nat)
  | deleteRoom (id : String)
  | addPlayerToRoom (roomId : String) (userId : Int) (userInfo : UserInfo)
      (connectionId : String)
  | removePlayerFromRoom (roomId : String) (userId : Int)
  | setRoomState (roomId : String) (state : RoomState)
  | setRoomLocked (roomId : String) (locked : Bool)
  | setRoomCycle (roomId : String) (cycle : Bool)
  | setPlayerReady (roomId : String) (userId : Int) (ready : Bool)
  | changeRoomOwner (roomId : String) (newOwnerId : Int)
  | cleanupEmptyRooms
deriving DecidableEq

/-- Run one operation, keeping the error channel: only `createRoom` can
throw, every other operation signals failure through its return value. -/
def applyOpE (initState : RoomState) (st : Registry UserInfo RoomState) :
    Op UserInfo RoomState → Except String (Registry UserInfo RoomState)
  | .createRoom options now => (createRoom st options initState now).map Prod.snd
  | .deleteRoom id => Except.ok (deleteRoom st id).2
  | .addPlayerToRoom roomId userId userInfo connectionId =>
      Except.ok (addPlayerToRoom st roomId userId userInfo connectionId).2
  | .removePlayerFromRoom roomId userId =>
      Except.ok (removePlayerFromRoom st roomId userId).2
  | .setRoomState roomId state => Except.ok (setRoomState st roomId state).2
  | .setRoomLocked roomId locked => Except.ok (setRoomLocked st roomId locked).2
  | .setRoomCycle roomId cycle => Except.ok (setRoomCycle st roomId cycle).2
  | .setPlayerReady roomId userId ready =>
      Except.ok (setPlayerReady st roomId userId ready).2
  | .changeRoomOwner roomId newOwnerId =>
      Except.ok (changeRoomOwner st roomId newOwnerId).2
  | .cleanupEmptyRooms => Except.ok (cleanupEmptyRooms st)

/-- Run one operation; a thrown `createRoom` leaves the registry unchanged
(the throw happens before any mutation in the source). -/
def applyOp (initState : RoomState) (st : Registry UserInfo RoomState)
    (op : Op UserInfo RoomState) : Registry UserInfo RoomState :=
  match applyOpE initState st op with
  | .error _ => st
  | .ok st' => st'

/-- Run a sequence of operations from the empty registry. -/
def run (initState : RoomState) (ops : List (Op UserInfo RoomState)) :
    Registry UserInfo RoomState :=
  ops.foldl (applyOp initState) []

/-- Invariant 1 of the spec: every registered room has a non-empty
`players` map. -/
def PlayersNonempty (st : Registry UserInfo RoomState) : Prop :=
  ∀ p ∈ st, p.2.players ≠ []

/-- Invariant 2 of the spec: `ownerId` keys an entry of `players` for every
registered room. -/
def OwnerIsMember (st : Registry UserInfo RoomState) : Prop :=
  ∀ p ∈ st, (mget p.2.players p.2.ownerId).isSome = true

/-- Invariant 3 of the spec: `players.size <= maxPlayers` for every
registered room. -/
def WithinCapacity (st : Registry UserInfo RoomState) : Prop :=
  ∀ p ∈ st, (p.2.players.length : Int) ≤ p.2.maxPlayers

/-- The registry's keys are pairwise distinct (a JS `Map` cannot hold two
entries with the same key). -/
def KeysNodup (st : Registry UserInfo RoomState) : Prop :=
  (st.map Prod.fst).Nodup

/-- Returns `true` unless the operation is a `createRoom` whose capacity (after the
default of 8) is not positive. -/
def opPosCreate : Op UserInfo RoomState → Bool
  | .createRoom options _ => decide (0 < options.maxPlayers.getD 8)
  | _ => true

/-- Every `createRoom` in the sequence is given a positive `maxPlayers`
(or omits it, defaulting to 8). -/
def PosCreates (ops : List (Op UserInfo RoomState)) : Prop :=
  ∀ op ∈ ops, opPosCreate op = true

instance (st : Registry UserInfo RoomState) : Decidable (KeysNodup st) :=
  inferInstanceAs (Decidable ((st.map Prod.fst).Nodup))

instance (ops : List (Op UserInfo RoomState)) : Decidable (PosCreates ops) :=
  List.decidableBAll (fun op => opPosCreate op = true) ops

instance (st : Registry UserInfo RoomState) [DecidableEq UserInfo] :
    Decidable (PlayersNonempty st) :=
  inferInstanceAs (Decidable (∀ p ∈ st, p.2.players ≠ []))

instance (st : Registry UserInfo RoomState) :
    Decidable (OwnerIsMember st) :=
  inferInstanceAs (Decidable (∀ p ∈ st, (mget p.2.players p.2.ownerId).isSome = true))

instance (st : Registry UserInfo RoomState) : Decidable (WithinCapacity st) :=
  inferInstanceAs (Decidable (∀ p ∈ st, (p.2.players.length : Int) ≤ p.2.maxPlayers))

section MapLemmas

variable {K V : Type} [DecidableEq K]

theorem mget_mset_self (m : List (K × V)) (k : K) (v : V) :
    mget (mset m k v) k = some v := by
  induction m with
  | nil => simp [mset, mget]
  | cons p rest ih =>
    obtain ⟨k', v'⟩ := p
    by_cases h : k' = k <;> simp [mset, mget, h, ih]

theorem mget_mset_ne (m : List (K × V)) (k k₂ : K) (v : V) (h : k ≠ k₂) :
    mget (mset m k v) k₂ = mget m k₂ := by
  induction m with
  | nil => simp [mset, mget, h]
  | cons p rest ih =>
    obtain ⟨k', v'⟩ := p
    by_cases hk : k' = k
    · subst hk
      simp [mset, mget, h]
    · simp [mset, mget, hk, ih]

theorem mem_mset (m : List (K × V)) (k : K) (v : V) (p : K × V)
    (h : p ∈ mset m k v) : p ∈ m ∨ p = (k, v) := by
  induction m with
  | nil => simp [mset] at h; simp [h]
  | cons q rest ih =>
    obtain ⟨k', v'⟩ := q
    by_cases hk : k' = k
    · simp [mset, hk] at h
      rcases h with h | h
      · right; simp [h]
      · left; simp [h]
    · simp [mset, hk] at h
      rcases h with h | h
      · left; simp [h]
      · rcases ih h with h' | h'
        · left; simp [h']
        · right; exact h'

theorem mem_mdelete (m : List (K × V)) (k : K) (p : K × V)
    (h : p ∈ mdelete m k) : p ∈ m := by
  induction m with
  | nil => simp [mdelete] at h
  | cons q rest ih =>
    obtain ⟨k', v'⟩ := q
    by_cases hk : k' = k
    · simp [mdelete, hk] at h
      simp [h]
    · simp [mdelete, hk] at h
      rcases h with h | h
      · simp [h]
      · simp [ih h]

theorem mget_mdelete_ne (m : List (K × V)) (k k₂ : K) (h : k ≠ k₂) :
    mget (mdelete m k) k₂ = mget m k₂ := by
  induction m with
  | nil => simp [mdelete]
  | cons q rest ih =>
    obtain ⟨k', v'⟩ := q
    by_cases hk : k' = k
    · subst hk
      simp [mdelete, mget, h]
    · simp [mdelete, mget, hk, ih]

theorem length_mset (m : List (K × V)) (k : K) (v : V) :
    (mset m k v).length = if (mget m k).isSome then m.length else m.length + 1 := by
  induction m with
  | nil => simp [mset, mget]
  | cons q rest ih =>
    obtain ⟨k', v'⟩ := q
    by_cases hk : k' = k
    · simp [mset, mget, hk]
    · simp only [mset, mget, hk, if_false, List.length_cons, ih]
      by_cases hs : (mget rest k).isSome <;> simp [hs]

theorem length_mdelete_le (m : List (K × V)) (k : K) :
    (mdelete m k).length ≤ m.length := by
  induction m with
  | nil => simp [mdelete]
  | cons q rest ih =>
    obtain ⟨k', v'⟩ := q
    by_cases hk : k' = k
    · have hrw : mdelete ((k', v') :: rest) k = rest := by simp [mdelete, hk]
      rw [hrw]
      simp only [List.length_cons]
      omega
    · have hrw : mdelete ((k', v') :: rest) k = (k', v') :: mdelete rest k := by
        simp [mdelete, hk]
      rw [hrw]
      simp only [List.length_cons]
      omega

theorem length_mdelete_of_isSome (m : List (K × V)) (k : K)
    (h : (mget m k).isSome = true) : (mdelete m k).length + 1 = m.length := by
  induction m with
  | nil => simp [mget] at h
  | cons q rest ih =>
    obtain ⟨k', v'⟩ := q
    by_cases hk : k' = k
    · simp [mdelete, hk]
    · simp [mget, hk] at h
      simp [mdelete, hk, ih h]

theorem mdelete_of_mget_none (m : List (K × V)) (k : K)
    (h : mget m k = none) : mdelete m k = m := by
  induction m with
  | nil => simp [mdelete]
  | cons q rest ih =>
    obtain ⟨k', v'⟩ := q
    by_cases hk : k' = k
    · simp [mget, hk] at h
    · simp [mget, hk] at h
      simp [mdelete, hk, ih h]

theorem mget_eq_none_iff (m : List (K × V)) (k : K) :
    mget m k = none ↔ k ∉ m.map Prod.fst := by
  induction m with
  | nil => simp [mget]
  | cons q rest ih =>
    obtain ⟨k', v'⟩ := q
    by_cases hk : k' = k
    · subst hk
      simp [mget]
    · simp only [mget, if_neg hk, ih, List.map_cons, List.mem_cons, not_or]
      constructor
      · intro h
        exact ⟨fun hh => hk hh.symm, h⟩
      · intro h
        exact h.2

theorem keys_mset_of_isSome (m : List (K × V)) (k : K) (v : V)
    (h : (mget m k).isSome = true) :
    (mset m k v).map Prod.fst = m.map Prod.fst := by
  induction m with
  | nil => simp [mget] at h
  | cons q rest ih =>
    obtain ⟨k', v'⟩ := q
    by_cases hk : k' = k
    · simp [mset, hk]
    · simp [mget, hk] at h
      simp [mset, hk, ih h]

theorem keys_mset_of_none (m : List (K × V)) (k : K) (v : V)
    (h : mget m k = none) :
    (mset m k v).map Prod.fst = m.map Prod.fst ++ [k] := by
  induction m with
  | nil => simp [mset]
  | cons q rest ih =>
    obtain ⟨k', v'⟩ := q
    by_cases hk : k' = k
    · simp [mget, hk] at h
    · simp [mget, hk] at h
      simp [mset, hk, ih h]

theorem sublist_mdelete (m : List (K × V)) (k : K) :
    List.Sublist (mdelete m k) m := by
  induction m with
  | nil => simp [mdelete]
  | cons q rest ih =>
    obtain ⟨k', v'⟩ := q
    by_cases hk : k' = k
    · simp only [mdelete, hk, if_true]
      exact List.sublist_cons_self _ _
    · simp only [mdelete, hk, if_false]
      exact List.Sublist.cons₂ _ ih

theorem keysNodup_mset (m : List (K × V)) (k : K) (v : V)
    (h : (m.map Prod.fst).Nodup) : ((mset m k v).map Prod.fst).Nodup := by
  by_cases hs : (mget m k).isSome
  · rw [keys_mset_of_isSome m k v hs]
    exact h
  · rw [Option.not_isSome_iff_eq_none] at hs
    rw [keys_mset_of_none m k v hs]
    refine List.Nodup.append h (List.nodup_singleton k) ?_
    intro a ha hb
    simp only [List.mem_singleton] at hb
    rw [hb] at ha
    exact (mget_eq_none_iff m k).mp hs ha

theorem keysNodup_mdelete (m : List (K × V)) (k : K)
    (h : (m.map Prod.fst).Nodup) : ((mdelete m k).map Prod.fst).Nodup :=
  ((sublist_mdelete m k).map Prod.fst).nodup h

theorem mget_mdelete_self (m : List (K × V)) (k : K)
    (h : (m.map Prod.fst).Nodup) : mget (mdelete m k) k = none := by
  induction m with
  | nil => simp [mdelete, mget]
  | cons q rest ih =>
    obtain ⟨k', v'⟩ := q
    simp only [List.map_cons, List.nodup_cons] at h
    by_cases hk : k' = k
    · subst hk
      simp only [mdelete, if_true]
      rw [mget_eq_none_iff]
      exact h.1
    · simp [mdelete, mget, hk, ih h.2]

theorem mdelete_mset_same (m : List (K × V)) (k : K) (v : V) :
    mdelete (mset m k v) k = mdelete m k := by
  induction m with
  | nil => simp [mset, mdelete]
  | cons q rest ih =>
    obtain ⟨k', v'⟩ := q
    by_cases hk : k' = k <;> simp [mset, mdelete, hk, ih]

theorem mset_mset_same (m : List (K × V)) (k : K) (v v' : V) :
    mset (mset m k v) k v' = mset m k v' := by
  induction m with
  | nil => simp [mset]
  | cons q rest ih =>
    obtain ⟨k', v₂⟩ := q
    by_cases hk : k' = k <;> simp [mset, hk, ih]

theorem mget_mem (m : List (K × V)) (k : K) (v : V)
    (h : mget m k = some v) : (k, v) ∈ m := by
  induction m with
  | nil => simp [mget] at h
  | cons q rest ih =>
    obtain ⟨k', v'⟩ := q
    by_cases hk : k' = k
    · subst hk
      simp [mget] at h
      simp [h]
    · simp [mget, hk] at h
      simp [ih h]

theorem mget_isSome_of_mem_keys (m : List (K × V)) (k : K)
    (h : k ∈ m.map Prod.fst) : (mget m k).isSome = true := by
  by_cases hs : (mget m k).isSome
  · exact hs
  · rw [Option.not_isSome_iff_eq_none] at hs
    exact absurd h ((mget_eq_none_iff m k).mp hs)

end MapLemmas

section OpLemmas

variable {UserInfo RoomState : Type}

theorem createRoom_of_isSome (st : Registry UserInfo RoomState) (options : CreateRoomOptions UserInfo)
    (initState : RoomState) (now : Nat) (h : (mget st options.id).isSome = true) :
    createRoom st options initState now =
      Except.error ("Room with id " ++ options.id ++ " already exists") := by
  simp [createRoom, h]

theorem createRoom_of_none (st : Registry UserInfo RoomState) (options : CreateRoomOptions UserInfo)
    (initState : RoomState) (now : Nat) (h : mget st options.id = none) :
    createRoom st options initState now =
      Except.ok (newRoom options initState now,
        mset st options.id (newRoom options initState now)) := by
  simp [createRoom, h, newRoom, mset]

theorem deleteRoom_snd (st : Registry UserInfo RoomState) (id : String) :
    (deleteRoom st id).2 = mdelete st id := by
  unfold deleteRoom
  by_cases h : (mget st id).isSome
  · simp [h]
  · rw [Option.not_isSome_iff_eq_none] at h
    simp [h, mdelete_of_mget_none st id h]

theorem applyOp_createRoom (initState : RoomState) (st : Registry UserInfo RoomState)
    (options : CreateRoomOptions UserInfo) (now : Nat) :
    applyOp initState st (Op.createRoom options now) =
      if (mget st options.id).isSome then st
      else mset st options.id (newRoom options initState now) := by
  by_cases h : (mget st options.id).isSome
  · simp [applyOp, applyOpE, createRoom_of_isSome st options initState now h, Except.map, h]
  · rw [Option.not_isSome_iff_eq_none] at h
    simp [applyOp, applyOpE, createRoom_of_none st options initState now h, Except.map, h]

theorem addPlayerToRoom_absent (st : Registry UserInfo RoomState) (roomId : String)
    (userId : Int) (userInfo : UserInfo) (connectionId : String)
    (h : mget st roomId = none) :
    addPlayerToRoom st roomId userId userInfo connectionId = (false, st) := by
  simp [addPlayerToRoom, h]

theorem addPlayerToRoom_full (st : Registry UserInfo RoomState) (roomId : String)
    (userId : Int) (userInfo : UserInfo) (connectionId : String)
    (room : Room UserInfo RoomState) (h : mget st roomId = some room)
    (hf : (room.players.length : Int) ≥ room.maxPlayers) :
    addPlayerToRoom st roomId userId userInfo connectionId = (false, st) := by
  simp [addPlayerToRoom, h, hf]

theorem addPlayerToRoom_locked (st : Registry UserInfo RoomState) (roomId : String)
    (userId : Int) (userInfo : UserInfo) (connectionId : String)
    (room : Room UserInfo RoomState) (h : mget st roomId = some room)
    (hl : room.locked = true) :
    addPlayerToRoom st roomId userId userInfo connectionId = (false, st) := by
  unfold addPlayerToRoom
  rw [h]
  by_cases hf : (room.players.length : Int) ≥ room.maxPlayers <;> simp [hf, hl]

theorem addPlayerToRoom_ok (st : Registry UserInfo RoomState) (roomId : String)
    (userId : Int) (userInfo : UserInfo) (connectionId : String)
    (room : Room UserInfo RoomState) (h : mget st roomId = some room)
    (hf : (room.players.length : Int) < room.maxPlayers) (hl : room.locked = false) :
    addPlayerToRoom st roomId userId userInfo connectionId =
      (true, mset st roomId { room with
        players := mset room.players userId
          { user := userInfo, connectionId := connectionId, isReady := false } }) := by
  simp [addPlayerToRoom, h, not_le.mpr hf, hl]

theorem changeRoomOwner_absent (st : Registry UserInfo RoomState) (roomId : String)
    (newOwnerId : Int) (h : mget st roomId = none) :
    changeRoomOwner st roomId newOwnerId = (false, st) := by
  simp [changeRoomOwner, h]

theorem changeRoomOwner_notMember (st : Registry UserInfo RoomState) (roomId : String)
    (newOwnerId : Int) (room : Room UserInfo RoomState) (h : mget st roomId = some room)
    (hm : mget room.players newOwnerId = none) :
    changeRoomOwner st roomId newOwnerId = (false, st) := by
  simp [changeRoomOwner, h, hm]

theorem changeRoomOwner_ok (st : Registry UserInfo RoomState) (roomId : String)
    (newOwnerId : Int) (room : Room UserInfo RoomState) (h : mget st roomId = some room)
    (hm : (mget room.players newOwnerId).isSome = true) :
    changeRoomOwner st roomId newOwnerId =
      (true, mset st roomId { room with ownerId := newOwnerId }) := by
  simp [changeRoomOwner, h, hm]

theorem removePlayerFromRoom_absent (st : Registry UserInfo RoomState) (roomId : String)
    (userId : Int) (h : mget st roomId = none) :
    removePlayerFromRoom st roomId userId = (false, st) := by
  simp [removePlayerFromRoom, h]

theorem removePlayerFromRoom_notMember (st : Registry UserInfo RoomState) (roomId : String)
    (userId : Int) (room : Room UserInfo RoomState) (h : mget st roomId = some room)
    (hm : mget room.players userId = none) :
    removePlayerFromRoom st roomId userId = (false, st) := by
  simp [removePlayerFromRoom, h, hm]

theorem removePlayerFromRoom_last (st : Registry UserInfo RoomState) (roomId : String)
    (userId : Int) (room : Room UserInfo RoomState) (h : mget st roomId = some room)
    (hm : (mget room.players userId).isSome = true)
    (hz : mdelete room.players userId = []) :
    removePlayerFromRoom st roomId userId = (true, mdelete st roomId) := by
  simp [removePlayerFromRoom, h, hm, hz, deleteRoom_snd, mdelete_mset_same]

theorem removePlayerFromRoom_ownerLeft (st : Registry UserInfo RoomState) (roomId : String)
    (userId : Int) (room : Room UserInfo RoomState) (k₀ : Int) (v₀ : PlayerInfo UserInfo)
    (tail : List (Int × PlayerInfo UserInfo)) (h : mget st roomId = some room)
    (hm : (mget room.players userId).isSome = true)
    (hd : mdelete room.players userId = (k₀, v₀) :: tail)
    (ho : room.ownerId = userId) :
    removePlayerFromRoom st roomId userId =
      (true, mset st roomId
        { room with players := (k₀, v₀) :: tail, ownerId := k₀ }) := by
  subst ho
  simp [removePlayerFromRoom, changeRoomOwner, h, hm, hd, mget, mget_mset_self,
    mset_mset_same]

theorem removePlayerFromRoom_nonOwner (st : Registry UserInfo RoomState) (roomId : String)
    (userId : Int) (room : Room UserInfo RoomState) (h : mget st roomId = some room)
    (hm : (mget room.players userId).isSome = true)
    (hnz : mdelete room.players userId ≠ [])
    (ho : room.ownerId ≠ userId) :
    removePlayerFromRoom st roomId userId =
      (true, mset st roomId { room with players := mdelete room.players userId }) := by
  unfold removePlayerFromRoom
  rw [h]
  simp [hm, List.length_eq_zero, hnz, ho]

theorem setRoomState_absent (st : Registry UserInfo RoomState) (roomId : String)
    (state : RoomState) (h : mget st roomId = none) :
    setRoomState st roomId state = (false, st) := by
  simp [setRoomState, h]

theorem setRoomState_ok (st : Registry UserInfo RoomState) (roomId : String)
    (state : RoomState) (room : Room UserInfo RoomState) (h : mget st roomId = some room) :
    setRoomState st roomId state = (true, mset st roomId { room with state := state }) := by
  simp [setRoomState, h]

theorem setRoomLocked_absent (st : Registry UserInfo RoomState) (roomId : String)
    (locked : Bool) (h : mget st roomId = none) :
    setRoomLocked st roomId locked = (false, st) := by
  simp [setRoomLocked, h]

theorem setRoomLocked_ok (st : Registry UserInfo RoomState) (roomId : String)
    (locked : Bool) (room : Room UserInfo RoomState) (h : mget st roomId = some room) :
    setRoomLocked st roomId locked = (true, mset st roomId { room with locked := locked }) := by
  simp [setRoomLocked, h]

theorem setRoomCycle_absent (st : Registry UserInfo RoomState) (roomId : String)
    (cycle : Bool) (h : mget st roomId = none) :
    setRoomCycle st roomId cycle = (false, st) := by
  simp [setRoomCycle, h]

theorem setRoomCycle_ok (st : Registry UserInfo RoomState) (roomId : String)
    (cycle : Bool) (room : Room UserInfo RoomState) (h : mget st roomId = some room) :
    setRoomCycle st roomId cycle = (true, mset st roomId { room with cycle := cycle }) := by
  simp [setRoomCycle, h]

theorem setPlayerReady_absent (st : Registry UserInfo RoomState) (roomId : String)
    (userId : Int) (ready : Bool) (h : mget st roomId = none) :
    setPlayerReady st roomId userId ready = (false, st) := by
  simp [setPlayerReady, h]

theorem setPlayerReady_noPlayer (st : Registry UserInfo RoomState) (roomId : String)
    (userId : Int) (ready : Bool) (room : Room UserInfo RoomState)
    (h : mget st roomId = some room) (hp : mget room.players userId = none) :
    setPlayerReady st roomId userId ready = (false, st) := by
  simp [setPlayerReady, h, hp]

theorem setPlayerReady_ok (st : Registry UserInfo RoomState) (roomId : String)
    (userId : Int) (ready : Bool) (room : Room UserInfo RoomState)
    (player : PlayerInfo UserInfo) (h : mget st roomId = some room)
    (hp : mget room.players userId = some player) :
    setPlayerReady st roomId userId ready =
      (true, mset st roomId
        { room with players := mset room.players userId { player with isReady := ready } }) := by
  simp [setPlayerReady, h, hp]

theorem foldl_deleteRoom_eq (ids : List String) (st : Registry UserInfo RoomState) :
    ids.foldl (fun s id => (deleteRoom s id).2) st = ids.foldl mdelete st := by
  induction ids generalizing st with
  | nil => rfl
  | cons i rest ih =>
    simp only [List.foldl_cons, deleteRoom_snd, ih]

theorem cleanupEmptyRooms_eq_foldl (st : Registry UserInfo RoomState) :
    cleanupEmptyRooms st =
      ((st.filter (fun p => p.2.players.length == 0)).map Prod.fst).foldl mdelete st := by
  unfold cleanupEmptyRooms
  exact foldl_deleteRoom_eq _ st

theorem mem_foldl_mdelete (ids : List String) (st : Registry UserInfo RoomState)
    (p : String × Room UserInfo RoomState) (h : p ∈ ids.foldl mdelete st) : p ∈ st := by
  induction ids generalizing st with
  | nil => exact h
  | cons i rest ih =>
    exact mem_mdelete st i p (ih (mdelete st i) h)

end OpLemmas

section InvariantProofs

variable {UserInfo RoomState : Type}

theorem forall_mem_mset {Q : String × Room UserInfo RoomState → Prop}
    (st : Registry UserInfo RoomState) (k : String) (r : Room UserInfo RoomState)
    (h : ∀ p ∈ st, Q p) (hr : Q (k, r)) : ∀ p ∈ mset st k r, Q p := by
  intro p hp
  rcases mem_mset st k r p hp with hmem | heq
  · exact h p hmem
  · rw [heq]
    exact hr

theorem forall_mem_mdelete {Q : String × Room UserInfo RoomState → Prop}
    (st : Registry UserInfo RoomState) (k : String)
    (h : ∀ p ∈ st, Q p) : ∀ p ∈ mdelete st k, Q p := by
  intro p hp
  exact h p (mem_mdelete st k p hp)

theorem forall_mem_foldl_mdelete {Q : String × Room UserInfo RoomState → Prop}
    (ids : List String) (st : Registry UserInfo RoomState)
    (h : ∀ p ∈ st, Q p) : ∀ p ∈ ids.foldl mdelete st, Q p := by
  intro p hp
  exact h p (mem_foldl_mdelete ids st p hp)

theorem ownerIsMember_applyOp (initState : RoomState) (st : Registry UserInfo RoomState)
    (op : Op UserInfo RoomState) (h : OwnerIsMember st) :
    OwnerIsMember (applyOp initState st op) := by
  cases op with
  | createRoom options now =>
    rw [applyOp_createRoom]
    by_cases hdup : (mget st options.id).isSome
    · rw [if_pos hdup]
      exact h
    · rw [if_neg hdup]
      refine forall_mem_mset st _ _ h ?_
      show (mget (newRoom options initState now).players
        (newRoom options initState now).ownerId).isSome = true
      simp [newRoom, mget]
  | deleteRoom id =>
    show OwnerIsMember (deleteRoom st id).2
    rw [deleteRoom_snd]
    exact forall_mem_mdelete st id h
  | addPlayerToRoom roomId userId userInfo connectionId =>
    show OwnerIsMember (addPlayerToRoom st roomId userId userInfo connectionId).2
    rcases hcase : mget st roomId with _ | room
    · rw [addPlayerToRoom_absent st roomId userId userInfo connectionId hcase]
      exact h
    · by_cases hf : (room.players.length : Int) ≥ room.maxPlayers
      · rw [addPlayerToRoom_full st roomId userId userInfo connectionId room hcase hf]
        exact h
      · rcases hl : room.locked with _ | _
        · rw [addPlayerToRoom_ok st roomId userId userInfo connectionId room hcase
            (lt_of_not_ge hf) hl]
          refine forall_mem_mset st _ _ h ?_
          show (mget (mset room.players userId
            { user := userInfo, connectionId := connectionId, isReady := false })
            room.ownerId).isSome = true
          by_cases ho : userId = room.ownerId
          · rw [ho, mget_mset_self]
            rfl
          · rw [mget_mset_ne room.players userId room.ownerId _ ho]
            exact h (roomId, room) (mget_mem st roomId room hcase)
        · rw [addPlayerToRoom_locked st roomId userId userInfo connectionId room hcase hl]
          exact h
  | removePlayerFromRoom roomId userId =>
    show OwnerIsMember (removePlayerFromRoom st roomId userId).2
    rcases hcase : mget st roomId with _ | room
    · rw [removePlayerFromRoom_absent st roomId userId hcase]
      exact h
    · rcases hmem : mget room.players userId with _ | player
      · rw [removePlayerFromRoom_notMember st roomId userId room hcase hmem]
        exact h
      · have hm : (mget room.players userId).isSome = true := by rw [hmem]; rfl
        rcases hplayers : mdelete room.players userId with _ | ⟨⟨k₀, v₀⟩, tail⟩
        · rw [removePlayerFromRoom_last st roomId userId room hcase hm hplayers]
          exact forall_mem_mdelete st roomId h
        · by_cases ho : room.ownerId = userId
          · rw [removePlayerFromRoom_ownerLeft st roomId userId room k₀ v₀ tail hcase hm
              hplayers ho]
            refine forall_mem_mset st _ _ h ?_
            show (mget ((k₀, v₀) :: tail) k₀).isSome = true
            simp [mget]
          · rw [removePlayerFromRoom_nonOwner st roomId userId room hcase hm
              (by rw [hplayers]; exact List.cons_ne_nil _ _) ho]
            refine forall_mem_mset st _ _ h ?_
            show (mget (mdelete room.players userId) room.ownerId).isSome = true
            rw [mget_mdelete_ne room.players userId room.ownerId (fun hh => ho hh.symm)]
            exact h (roomId, room) (mget_mem st roomId room hcase)
  | setRoomState roomId state =>
    show OwnerIsMember (setRoomState st roomId state).2
    rcases hcase : mget st roomId with _ | room
    · rw [setRoomState_absent st roomId state hcase]
      exact h
    · rw [setRoomState_ok st roomId state room hcase]
      refine forall_mem_mset st _ _ h ?_
      exact h (roomId, room) (mget_mem st roomId room hcase)
  | setRoomLocked roomId locked =>
    show OwnerIsMember (setRoomLocked st roomId locked).2
    rcases hcase : mget st roomId with _ | room
    · rw [setRoomLocked_absent st roomId locked hcase]
      exact h
    · rw [setRoomLocked_ok st roomId locked room hcase]
      refine forall_mem_mset st _ _ h ?_
      exact h (roomId, room) (mget_mem st roomId room hcase)
  | setRoomCycle roomId cycle =>
    show OwnerIsMember (setRoomCycle st roomId cycle).2
    rcases hcase : mget st roomId with _ | room
    · rw [setRoomCycle_absent st roomId cycle hcase]
      exact h
    · rw [setRoomCycle_ok st roomId cycle room hcase]
      refine forall_mem_mset st _ _ h ?_
      exact h (roomId, room) (mget_mem st roomId room hcase)
  | setPlayerReady roomId userId ready =>
    show OwnerIsMember (setPlayerReady st roomId userId ready).2
    rcases hcase : mget st roomId with _ | room
    · rw [setPlayerReady_absent st roomId userId ready hcase]
      exact h
    · rcases hp : mget room.players userId with _ | player
      · rw [setPlayerReady_noPlayer st roomId userId ready room hcase hp]
        exact h
      · rw [setPlayerReady_ok st roomId userId ready room player hcase hp]
        refine forall_mem_mset st _ _ h ?_
        show (mget (mset room.players userId { player with isReady := ready })
          room.ownerId).isSome = true
        by_cases ho : userId = room.ownerId
        · rw [ho, mget_mset_self]
          rfl
        · rw [mget_mset_ne room.players userId room.ownerId _ ho]
          exact h (roomId, room) (mget_mem st roomId room hcase)
  | changeRoomOwner roomId newOwnerId =>
    show OwnerIsMember (changeRoomOwner st roomId newOwnerId).2
    rcases hcase : mget st roomId with _ | room
    · rw [changeRoomOwner_absent st roomId newOwnerId hcase]
      exact h
    · rcases hmem : mget room.players newOwnerId with _ | player
      · rw [changeRoomOwner_notMember st roomId newOwnerId room hcase hmem]
        exact h
      · rw [changeRoomOwner_ok st roomId newOwnerId room hcase (by rw [hmem]; rfl)]
        refine forall_mem_mset st _ _ h ?_
        show (mget room.players newOwnerId).isSome = true
        rw [hmem]
        rfl
  | cleanupEmptyRooms =>
    show OwnerIsMember (cleanupEmptyRooms st)
    rw [cleanupEmptyRooms_eq_foldl]
    exact forall_mem_foldl_mdelete _ st h

theorem mset_ne_nil {K V : Type} [DecidableEq K] (m : List (K × V)) (k : K) (v : V) :
    mset m k v ≠ [] := by
  cases m with
  | nil => simp [mset]
  | cons q rest =>
    obtain ⟨k', v'⟩ := q
    by_cases hk : k' = k <;> simp [mset, hk]

theorem playersNonempty_applyOp (initState : RoomState) (st : Registry UserInfo RoomState)
    (op : Op UserInfo RoomState) (h : PlayersNonempty st) :
    PlayersNonempty (applyOp initState st op) := by
  cases op with
  | createRoom options now =>
    rw [applyOp_createRoom]
    by_cases hdup : (mget st options.id).isSome
    · rw [if_pos hdup]
      exact h
    · rw [if_neg hdup]
      refine forall_mem_mset st _ _ h ?_
      show (newRoom options initState now).players ≠ []
      simp [newRoom]
  | deleteRoom id =>
    show PlayersNonempty (deleteRoom st id).2
    rw [deleteRoom_snd]
    exact forall_mem_mdelete st id h
  | addPlayerToRoom roomId userId userInfo connectionId =>
    show PlayersNonempty (addPlayerToRoom st roomId userId userInfo connectionId).2
    rcases hcase : mget st roomId with _ | room
    · rw [addPlayerToRoom_absent st roomId userId userInfo connectionId hcase]
      exact h
    · by_cases hf : (room.players.length : Int) ≥ room.maxPlayers
      · rw [addPlayerToRoom_full st roomId userId userInfo connectionId room hcase hf]
        exact h
      · rcases hl : room.locked with _ | _
        · rw [addPlayerToRoom_ok st roomId userId userInfo connectionId room hcase
            (lt_of_not_ge hf) hl]
          refine forall_mem_mset st _ _ h ?_
          exact mset_ne_nil room.players userId _
        · rw [addPlayerToRoom_locked st roomId userId userInfo connectionId room hcase hl]
          exact h
  | removePlayerFromRoom roomId userId =>
    show PlayersNonempty (removePlayerFromRoom st roomId userId).2
    rcases hcase : mget st roomId with _ | room
    · rw [removePlayerFromRoom_absent st roomId userId hcase]
      exact h
    · rcases hmem : mget room.players userId with _ | player
      · rw [removePlayerFromRoom_notMember st roomId userId room hcase hmem]
        exact h
      · have hm : (mget room.players userId).isSome = true := by rw [hmem]; rfl
        rcases hplayers : mdelete room.players userId with _ | ⟨⟨k₀, v₀⟩, tail⟩
        · rw [removePlayerFromRoom_last st roomId userId room hcase hm hplayers]
          exact forall_mem_mdelete st roomId h
        · by_cases ho : room.ownerId = userId
          · rw [removePlayerFromRoom_ownerLeft st roomId userId room k₀ v₀ tail hcase hm
              hplayers ho]
            refine forall_mem_mset st _ _ h ?_
            show ((k₀, v₀) :: tail) ≠ []
            exact List.cons_ne_nil _ _
          · rw [removePlayerFromRoom_nonOwner st roomId userId room hcase hm
              (by rw [hplayers]; exact List.cons_ne_nil _ _) ho]
            refine forall_mem_mset st _ _ h ?_
            show mdelete room.players userId ≠ []
            rw [hplayers]
            exact List.cons_ne_nil _ _
  | setRoomState roomId state =>
    show PlayersNonempty (setRoomState st roomId state).2
    rcases hcase : mget st roomId with _ | room
    · rw [setRoomState_absent st roomId state hcase]
      exact h
    · rw [setRoomState_ok st roomId state room hcase]
      refine forall_mem_mset st _ _ h ?_
      exact h (roomId, room) (mget_mem st roomId room hcase)
  | setRoomLocked roomId locked =>
    show PlayersNonempty (setRoomLocked st roomId locked).2
    rcases hcase : mget st roomId with _ | room
    · rw [setRoomLocked_absent st roomId locked hcase]
      exact h
    · rw [setRoomLocked_ok st roomId locked room hcase]
      refine forall_mem_mset st _ _ h ?_
      exact h (roomId, room) (mget_mem st roomId room hcase)
  | setRoomCycle roomId cycle =>
    show PlayersNonempty (setRoomCycle st roomId cycle).2
    rcases hcase : mget st roomId with _ | room
    · rw [setRoomCycle_absent st roomId cycle hcase]
      exact h
    · rw [setRoomCycle_ok st roomId cycle room hcase]
      refine forall_mem_mset st _ _ h ?_
      exact h (roomId, room) (mget_mem st roomId room hcase)
  | setPlayerReady roomId userId ready =>
    show PlayersNonempty (setPlayerReady st roomId userId ready).2
    rcases hcase : mget st roomId with _ | room
    · rw [setPlayerReady_absent st roomId userId ready hcase]
      exact h
    · rcases hp : mget room.players userId with _ | player
      · rw [setPlayerReady_noPlayer st roomId userId ready room hcase hp]
        exact h
      · rw [setPlayerReady_ok st roomId userId ready room player hcase hp]
        refine forall_mem_mset st _ _ h ?_
        exact mset_ne_nil room.players userId _
  | changeRoomOwner roomId newOwnerId =>
    show PlayersNonempty (changeRoomOwner st roomId newOwnerId).2
    rcases hcase : mget st roomId with _ | room
    · rw [changeRoomOwner_absent st roomId newOwnerId hcase]
      exact h
    · rcases hmem : mget room.players newOwnerId with _ | player
      · rw [changeRoomOwner_notMember st roomId newOwnerId room hcase hmem]
        exact h
      · rw [changeRoomOwner_ok st roomId newOwnerId room hcase (by rw [hmem]; rfl)]
        refine forall_mem_mset st _ _ h ?_
        exact h (roomId, room) (mget_mem st roomId room hcase)
  | cleanupEmptyRooms =>
    show PlayersNonempty (cleanupEmptyRooms st)
    rw [cleanupEmptyRooms_eq_foldl]
    exact forall_mem_foldl_mdelete _ st h

theorem withinCapacity_applyOp (initState : RoomState) (st : Registry UserInfo RoomState)
    (op : Op UserInfo RoomState) (h : WithinCapacity st) (hpos : opPosCreate op = true) :
    WithinCapacity (applyOp initState st op) := by
  cases op with
  | createRoom options now =>
    rw [applyOp_createRoom]
    by_cases hdup : (mget st options.id).isSome
    · rw [if_pos hdup]
      exact h
    · rw [if_neg hdup]
      refine forall_mem_mset st _ _ h ?_
      show (((newRoom options initState now).players.length : Int) ≤
        (newRoom options initState now).maxPlayers)
      have hp : 0 < options.maxPlayers.getD 8 := of_decide_eq_true hpos
      simp only [newRoom, List.length_cons, List.length_nil]
      omega
  | deleteRoom id =>
    show WithinCapacity (deleteRoom st id).2
    rw [deleteRoom_snd]
    exact forall_mem_mdelete st id h
  | addPlayerToRoom roomId userId userInfo connectionId =>
    show WithinCapacity (addPlayerToRoom st roomId userId userInfo connectionId).2
    rcases hcase : mget st roomId with _ | room
    · rw [addPlayerToRoom_absent st roomId userId userInfo connectionId hcase]
      exact h
    · by_cases hf : (room.players.length : Int) ≥ room.maxPlayers
      · rw [addPlayerToRoom_full st roomId userId userInfo connectionId room hcase hf]
        exact h
      · rcases hl : room.locked with _ | _
        · rw [addPlayerToRoom_ok st roomId userId userInfo connectionId room hcase
            (lt_of_not_ge hf) hl]
          refine forall_mem_mset st _ _ h ?_
          show ((mset room.players userId
            { user := userInfo, connectionId := connectionId, isReady := false }).length : Int) ≤
            room.maxPlayers
          have hlt : (room.players.length : Int) < room.maxPlayers := lt_of_not_ge hf
          rw [length_mset]
          by_cases hs : (mget room.players userId).isSome
          · rw [if_pos hs]
            exact le_of_lt hlt
          · rw [if_neg hs]
            push_cast
            omega
        · rw [addPlayerToRoom_locked st roomId userId userInfo connectionId room hcase hl]
          exact h
  | removePlayerFromRoom roomId userId =>
    show WithinCapacity (removePlayerFromRoom st roomId userId).2
    rcases hcase : mget st roomId with _ | room
    · rw [removePlayerFromRoom_absent st roomId userId hcase]
      exact h
    · rcases hmem : mget room.players userId with _ | player
      · rw [removePlayerFromRoom_notMember st roomId userId room hcase hmem]
        exact h
      · have hm : (mget room.players userId).isSome = true := by rw [hmem]; rfl
        have hb : (room.players.length : Int) ≤ room.maxPlayers :=
          h (roomId, room) (mget_mem st roomId room hcase)
        have hdel : (mdelete room.players userId).length ≤ room.players.length :=
          length_mdelete_le room.players userId
        rcases hplayers : mdelete room.players userId with _ | ⟨⟨k₀, v₀⟩, tail⟩
        · rw [removePlayerFromRoom_last st roomId userId room hcase hm hplayers]
          exact forall_mem_mdelete st roomId h
        · rw [hplayers] at hdel
          by_cases ho : room.ownerId = userId
          · rw [removePlayerFromRoom_ownerLeft st roomId userId room k₀ v₀ tail hcase hm
              hplayers ho]
            refine forall_mem_mset st _ _ h ?_
            show ((((k₀, v₀) :: tail).length : Int) ≤ room.maxPlayers)
            omega
          · rw [removePlayerFromRoom_nonOwner st roomId userId room hcase hm
              (by rw [hplayers]; exact List.cons_ne_nil _ _) ho]
            refine forall_mem_mset st _ _ h ?_
            show (((mdelete room.players userId).length : Int) ≤ room.maxPlayers)
            rw [hplayers]
            omega
  | setRoomState roomId state =>
    show WithinCapacity (setRoomState st roomId state).2
    rcases hcase : mget st roomId with _ | room
    · rw [setRoomState_absent st roomId state hcase]
      exact h
    · rw [setRoomState_ok st roomId state room hcase]
      refine forall_mem_mset st _ _ h ?_
      exact h (roomId, room) (mget_mem st roomId room hcase)
  | setRoomLocked roomId locked =>
    show WithinCapacity (setRoomLocked st roomId locked).2
    rcases hcase : mget st roomId with _ | room
    · rw [setRoomLocked_absent st roomId locked hcase]
      exact h
    · rw [setRoomLocked_ok st roomId locked room hcase]
      refine forall_mem_mset st _ _ h ?_
      exact h (roomId, room) (mget_mem st roomId room hcase)
  | setRoomCycle roomId cycle =>
    show WithinCapacity (setRoomCycle st roomId cycle).2
    rcases hcase : mget st roomId with _ | room
    · rw [setRoomCycle_absent st roomId cycle hcase]
      exact h
    · rw [setRoomCycle_ok st roomId cycle room hcase]
      refine forall_mem_mset st _ _ h ?_
      exact h (roomId, room) (mget_mem st roomId room hcase)
  | setPlayerReady roomId userId ready =>
    show WithinCapacity (setPlayerReady st roomId userId ready).2
    rcases hcase : mget st roomId with _ | room
    · rw [setPlayerReady_absent st roomId userId ready hcase]
      exact h
    · rcases hp : mget room.players userId with _ | player
      · rw [setPlayerReady_noPlayer st roomId userId ready room hcase hp]
        exact h
      · rw [setPlayerReady_ok st roomId userId ready room player hcase hp]
        refine forall_mem_mset st _ _ h ?_
        show ((mset room.players userId { player with isReady := ready }).length : Int) ≤
          room.maxPlayers
        rw [length_mset, if_pos (by rw [hp]; rfl)]
        exact h (roomId, room) (mget_mem st roomId room hcase)
  | changeRoomOwner roomId newOwnerId =>
    show WithinCapacity (changeRoomOwner st roomId newOwnerId).2
    rcases hcase : mget st roomId with _ | room
    · rw [changeRoomOwner_absent st roomId newOwnerId hcase]
      exact h
    · rcases hmem : mget room.players newOwnerId with _ | player
      · rw [changeRoomOwner_notMember st roomId newOwnerId room hcase hmem]
        exact h
      · rw [changeRoomOwner_ok st roomId newOwnerId room hcase (by rw [hmem]; rfl)]
        refine forall_mem_mset st _ _ h ?_
        exact h (roomId, room) (mget_mem st roomId room hcase)
  | cleanupEmptyRooms =>
    show WithinCapacity (cleanupEmptyRooms st)
    rw [cleanupEmptyRooms_eq_foldl]
    exact forall_mem_foldl_mdelete _ st h

theorem ownerIsMember_foldl (initState : RoomState) (ops : List (Op UserInfo RoomState))
    (st : Registry UserInfo RoomState) (h : OwnerIsMember st) :
    OwnerIsMember (ops.foldl (applyOp initState) st) := by
  induction ops generalizing st with
  | nil => exact h
  | cons op rest ih =>
    exact ih (applyOp initState st op) (ownerIsMember_applyOp initState st op h)

theorem playersNonempty_foldl (initState : RoomState) (ops : List (Op UserInfo RoomState))
    (st : Registry UserInfo RoomState) (h : PlayersNonempty st) :
    PlayersNonempty (ops.foldl (applyOp initState) st) := by
  induction ops generalizing st with
  | nil => exact h
  | cons op rest ih =>
    exact ih (applyOp initState st op) (playersNonempty_applyOp initState st op h)

theorem withinCapacity_foldl (initState : RoomState) (ops : List (Op UserInfo RoomState))
    (st : Registry UserInfo RoomState) (h : WithinCapacity st)
    (hpos : ∀ op ∈ ops, opPosCreate op = true) :
    WithinCapacity (ops.foldl (applyOp initState) st) := by
  induction ops generalizing st with
  | nil => exact h
  | cons op rest ih =>
    exact ih (applyOp initState st op)
      (withinCapacity_applyOp initState st op h (hpos op (List.mem_cons_self op rest)))
      (fun o ho => hpos o (List.mem_cons_of_mem op ho))

theorem foldl_mdelete_cons_not_mem (ids : List String) (k : String)
    (r : Room UserInfo RoomState) (st : Registry UserInfo RoomState) (hk : k ∉ ids) :
    ids.foldl mdelete ((k, r) :: st) = (k, r) :: ids.foldl mdelete st := by
  induction ids generalizing st with
  | nil => rfl
  | cons i rest ih =>
    have hki : k ≠ i := fun hh => hk (by rw [hh]; exact List.mem_cons_self i rest)
    have hrest : k ∉ rest := fun hh => hk (List.mem_cons_of_mem i hh)
    simp only [List.foldl_cons]
    have hdel : mdelete ((k, r) :: st) i = (k, r) :: mdelete st i := by
      simp [mdelete, hki]
    rw [hdel, ih (mdelete st i) hrest]

theorem cleanup_filter_aux (st : Registry UserInfo RoomState) :
    KeysNodup st →
    ((st.filter (fun p => p.2.players.length == 0)).map Prod.fst).foldl mdelete st =
      st.filter (fun p => !(p.2.players.length == 0)) := by
  induction st with
  | nil =>
    intro _
    rfl
  | cons q rest ih =>
    intro h
    obtain ⟨k, r⟩ := q
    rw [KeysNodup, List.map_cons, List.nodup_cons] at h
    obtain ⟨hknotin, hrestnodup⟩ := h
    by_cases hz : r.players.length = 0
    · have hfil : ((k, r) :: rest).filter (fun p => p.2.players.length == 0) =
          (k, r) :: rest.filter (fun p => p.2.players.length == 0) := by
        simp [List.filter_cons, hz]
      have hfil' : ((k, r) :: rest).filter (fun p => !(p.2.players.length == 0)) =
          rest.filter (fun p => !(p.2.players.length == 0)) := by
        simp [List.filter_cons, hz]
      rw [hfil, hfil', List.map_cons, List.foldl_cons]
      have hdel : mdelete ((k, r) :: rest) k = rest := by simp [mdelete]
      rw [hdel]
      exact ih hrestnodup
    · have hfil : ((k, r) :: rest).filter (fun p => p.2.players.length == 0) =
          rest.filter (fun p => p.2.players.length == 0) := by
        simp [List.filter_cons, hz]
      have hfil' : ((k, r) :: rest).filter (fun p => !(p.2.players.length == 0)) =
          (k, r) :: rest.filter (fun p => !(p.2.players.length == 0)) := by
        simp [List.filter_cons, hz]
      rw [hfil, hfil']
      have hknotids : k ∉ (rest.filter (fun p => p.2.players.length == 0)).map Prod.fst := by
        intro hkin
        exact hknotin
          (((List.filter_sublist rest).map Prod.fst).subset hkin)
      rw [foldl_mdelete_cons_not_mem _ k r rest hknotids]
      rw [ih hrestnodup]

end InvariantProofs

section SampleData

/-- Concrete creation options used by the witness statements. -/
def sampleOptions : CreateRoomOptions Nat :=
  { id := "r1"
    name := "Room 1"
    ownerId := 1
    ownerInfo := 10
    connectionId := "c1"
    maxPlayers := some 2
    password := none }

/-- A concrete operation sequence used by the witness statements. -/
def sampleOps : List (Op Nat Unit) :=
  [Op.createRoom sampleOptions 0,
   Op.addPlayerToRoom "r1" 2 20 "c2",
   Op.addPlayerToRoom "r1" 3 30 "c3",
   Op.removePlayerFromRoom "r1" 1]

end SampleData

section Claims

variable {UserInfo RoomState : Type}

/-- C1: for every sequence of registry operations starting from the empty
registry, after every operation completes, every room present in the
registry has `ownerId` keying an entry present in its `players` map
(invariant 2 of the spec). -/
theorem ownerIsMember_invariant (initState : RoomState)
    (ops : List (Op UserInfo RoomState)) : OwnerIsMember (run initState ops) :=
  ownerIsMember_foldl initState ops [] (fun p hp => absurd hp (List.not_mem_nil p))

theorem ownerIsMember_invariant_witness : OwnerIsMember (run () sampleOps) :=
  ownerIsMember_invariant () sampleOps

/-- C2: every registered room keeps a non-empty `players` map after every
operation (invariant 1 of the spec); moreover a `removePlayerFromRoom` call
that removes the last remaining player of a room deletes the room within
that same call: it returns `true`, `getRoom` subsequently returns `none`,
and `count` is one less than before the call. -/
theorem playersNonempty_invariant (initState : RoomState) :
    (∀ ops : List (Op UserInfo RoomState), PlayersNonempty (run initState ops)) ∧
    (∀ (st : Registry UserInfo RoomState) (roomId : String) (userId : Int)
        (room : Room UserInfo RoomState),
      KeysNodup st → mget st roomId = some room →
      room.players.map Prod.fst = [userId] →
      (removePlayerFromRoom st roomId userId).1 = true ∧
      getRoom (removePlayerFromRoom st roomId userId).2 roomId = none ∧
      count (removePlayerFromRoom st roomId userId).2 + 1 = count st) := by
  constructor
  · intro ops
    exact playersNonempty_foldl initState ops [] (fun p hp => absurd hp (List.not_mem_nil p))
  · intro st roomId userId room hnd hroom hsingle
    obtain ⟨pi, hpi⟩ : ∃ pi, room.players = [(userId, pi)] := by
      rcases hps : room.players with _ | ⟨⟨u, pi⟩, tail⟩
      · rw [hps] at hsingle
        simp at hsingle
      · rw [hps] at hsingle
        simp only [List.map_cons, List.cons.injEq] at hsingle
        obtain ⟨hu, htail⟩ := hsingle
        refine ⟨pi, ?_⟩
        rw [hu, List.map_eq_nil_iff.mp htail]
    have hm : (mget room.players userId).isSome = true := by
      rw [hpi]
      simp [mget]
    have hz : mdelete room.players userId = [] := by
      rw [hpi]
      simp [mdelete]
    rw [removePlayerFromRoom_last st roomId userId room hroom hm hz]
    refine ⟨rfl, ?_, ?_⟩
    · show mget (mdelete st roomId) roomId = none
      exact mget_mdelete_self st roomId hnd
    · show (mdelete st roomId).length + 1 = st.length
      exact length_mdelete_of_isSome st roomId (by rw [hroom]; rfl)

theorem playersNonempty_invariant_witness :
    PlayersNonempty (run () sampleOps) ∧
    ((removePlayerFromRoom (run () [Op.createRoom sampleOptions 0]) "r1" 1).1 = true ∧
     getRoom (removePlayerFromRoom (run () [Op.createRoom sampleOptions 0]) "r1" 1).2
       "r1" = none ∧
     count (removePlayerFromRoom (run () [Op.createRoom sampleOptions 0]) "r1" 1).2 + 1 =
       count (run () [Op.createRoom sampleOptions 0])) :=
  ⟨(playersNonempty_invariant ()).1 sampleOps,
   (playersNonempty_invariant ()).2 (run () [Op.createRoom sampleOptions 0]) "r1" 1
     (newRoom sampleOptions () 0) (by decide) (by decide) (by decide)⟩

/-- C3: for every sequence of registry operations starting from the empty
registry in which every `createRoom` is given a positive `maxPlayers` (or
omits it, defaulting to 8), every registered room satisfies
`players.size <= maxPlayers` (invariant 3 of the spec). -/
theorem withinCapacity_invariant (initState : RoomState)
    (ops : List (Op UserInfo RoomState)) (hpos : PosCreates ops) :
    WithinCapacity (run initState ops) :=
  withinCapacity_foldl initState ops [] (fun p hp => absurd hp (List.not_mem_nil p)) hpos

theorem withinCapacity_invariant_witness :
    PosCreates sampleOps ∧ WithinCapacity (run () sampleOps) :=
  ⟨by decide, withinCapacity_invariant () sampleOps (by decide)⟩

/-- C4: a run of one operation can throw only when the operation is a
`createRoom` whose id is already a key of the registry, and it throws in
exactly that case; when it throws, the registry is left entirely unchanged.
Every other operation signals not-found conditions through its return
value, never through the error channel. -/
theorem createRoom_error_spec (initState : RoomState)
    (st : Registry UserInfo RoomState) (op : Op UserInfo RoomState) :
    ((∃ e, applyOpE initState st op = Except.error e) ↔
      (∃ options now, op = Op.createRoom options now ∧
        (mget st options.id).isSome = true)) ∧
    (∀ e, applyOpE initState st op = Except.error e →
      applyOp initState st op = st) := by
  constructor
  · constructor
    · rintro ⟨e, he⟩
      cases op with
      | createRoom options now =>
        refine ⟨options, now, rfl, ?_⟩
        by_cases hdup : (mget st options.id).isSome
        · exact hdup
        · rw [Option.not_isSome_iff_eq_none] at hdup
          simp only [applyOpE, createRoom_of_none st options initState now hdup,
            Except.map] at he
          exact Except.noConfusion he
      | deleteRoom id => simp [applyOpE] at he
      | addPlayerToRoom roomId userId userInfo connectionId => simp [applyOpE] at he
      | removePlayerFromRoom roomId userId => simp [applyOpE] at he
      | setRoomState roomId state => simp [applyOpE] at he
      | setRoomLocked roomId locked => simp [applyOpE] at he
      | setRoomCycle roomId cycle => simp [applyOpE] at he
      | setPlayerReady roomId userId ready => simp [applyOpE] at he
      | changeRoomOwner roomId newOwnerId => simp [applyOpE] at he
      | cleanupEmptyRooms => simp [applyOpE] at he
    · rintro ⟨options, now, hop, hdup⟩
      subst hop
      refine ⟨"Room with id " ++ options.id ++ " already exists", ?_⟩
      simp only [applyOpE, createRoom_of_isSome st options initState now hdup, Except.map]
  · intro e he
    unfold applyOp
    rw [he]

theorem createRoom_error_spec_witness :
    applyOp () (run () [Op.createRoom sampleOptions 0]) (Op.createRoom sampleOptions 5) =
      run () [Op.createRoom sampleOptions 0] :=
  (createRoom_error_spec () (run () [Op.createRoom sampleOptions 0])
      (Op.createRoom sampleOptions 5)).2
    ("Room with id " ++ "r1" ++ " already exists") rfl

/-- C5: `addPlayerToRoom` returns `false` and leaves the registry unchanged
when the room is absent, at capacity, or locked; otherwise it inserts or
overwrites the entry for `userId` (not-ready) and returns `true`.  After
`setRoomLocked roomId true` admission is rejected with the registry
unchanged, and after `setRoomLocked roomId false` a room with spare
capacity admits again. -/
theorem addPlayerToRoom_spec (st : Registry UserInfo RoomState) (roomId : String)
    (userId : Int) (userInfo : UserInfo) (connectionId : String) :
    (mget st roomId = none →
      addPlayerToRoom st roomId userId userInfo connectionId = (false, st)) ∧
    (∀ room, mget st roomId = some room →
      ((room.players.length : Int) ≥ room.maxPlayers ∨ room.locked = true →
        addPlayerToRoom st roomId userId userInfo connectionId = (false, st)) ∧
      ((room.players.length : Int) < room.maxPlayers → room.locked = false →
        addPlayerToRoom st roomId userId userInfo connectionId =
          (true, mset st roomId { room with players := mset room.players userId ⟨userInfo, connectionId, false⟩ })) ∧
      (addPlayerToRoom (setRoomLocked st roomId true).2 roomId userId userInfo
          connectionId =
        (false, (setRoomLocked st roomId true).2)) ∧
      ((room.players.length : Int) < room.maxPlayers →
        (addPlayerToRoom (setRoomLocked st roomId false).2 roomId userId userInfo
          connectionId).1 = true)) := by
  refine ⟨fun h => addPlayerToRoom_absent st roomId userId userInfo connectionId h, ?_⟩
  intro room hroom
  refine ⟨?_, ?_, ?_, ?_⟩
  · rintro (hf | hl)
    · exact addPlayerToRoom_full st roomId userId userInfo connectionId room hroom hf
    · exact addPlayerToRoom_locked st roomId userId userInfo connectionId room hroom hl
  · intro hf hl
    exact addPlayerToRoom_ok st roomId userId userInfo connectionId room hroom hf hl
  · have h2 : (setRoomLocked st roomId true).2 =
        mset st roomId { room with locked := true } := by
      rw [setRoomLocked_ok st roomId true room hroom]
    have hst' : mget (setRoomLocked st roomId true).2 roomId =
        some { room with locked := true } := by
      rw [h2]
      exact mget_mset_self st roomId _
    exact addPlayerToRoom_locked _ roomId userId userInfo connectionId _ hst' rfl
  · intro hf
    have h2 : (setRoomLocked st roomId false).2 =
        mset st roomId { room with locked := false } := by
      rw [setRoomLocked_ok st roomId false room hroom]
    have hst' : mget (setRoomLocked st roomId false).2 roomId =
        some { room with locked := false } := by
      rw [h2]
      exact mget_mset_self st roomId _
    rw [addPlayerToRoom_ok _ roomId userId userInfo connectionId _ hst' hf rfl]

theorem addPlayerToRoom_spec_witness :
    addPlayerToRoom (run () [Op.createRoom sampleOptions 0]) "r1" 2 20 "c2" =
      (true, mset (run () [Op.createRoom sampleOptions 0]) "r1"
        { newRoom sampleOptions () 0 with
          players := mset (newRoom sampleOptions () 0).players 2
            { user := 20, connectionId := "c2", isReady := false } }) :=
  (((addPlayerToRoom_spec (run () [Op.createRoom sampleOptions 0]) "r1" 2 20 "c2").2
      (newRoom sampleOptions () 0) (by decide)).2.1 (by decide) (by decide))

/-- C7: `changeRoomOwner` returns `false` and leaves the registry unchanged
when the room is absent or `newOwnerId` is not a current member; when the
room exists and `newOwnerId` is a member it sets that room's `ownerId` to
`newOwnerId` and returns `true`. -/
theorem changeRoomOwner_spec (st : Registry UserInfo RoomState) (roomId : String)
    (newOwnerId : Int) :
    (mget st roomId = none → changeRoomOwner st roomId newOwnerId = (false, st)) ∧
    (∀ room, mget st roomId = some room →
      (mget room.players newOwnerId = none →
        changeRoomOwner st roomId newOwnerId = (false, st)) ∧
      ((mget room.players newOwnerId).isSome = true →
        changeRoomOwner st roomId newOwnerId =
          (true, mset st roomId { room with ownerId := newOwnerId }))) := by
  refine ⟨fun h => changeRoomOwner_absent st roomId newOwnerId h, ?_⟩
  intro room hroom
  exact ⟨fun hm => changeRoomOwner_notMember st roomId newOwnerId room hroom hm,
    fun hm => changeRoomOwner_ok st roomId newOwnerId room hroom hm⟩

theorem changeRoomOwner_spec_witness :
    changeRoomOwner (run () [Op.createRoom sampleOptions 0]) "r1" 99 =
      (false, run () [Op.createRoom sampleOptions 0]) :=
  ((changeRoomOwner_spec (run () [Op.createRoom sampleOptions 0]) "r1" 99).2
    (newRoom sampleOptions () 0) (by decide)).1 (by decide)

/-- C6: removing the owner of a room that has at least two members (with
distinct player keys, as a JS `Map` guarantees) returns `true`, keeps the
room registered, and transfers ownership to the player appearing first in
the membership map's iteration order after the removal; afterwards
`isRoomOwner` returns `false` for the removed player and `true` for
exactly one remaining member. -/
theorem ownerRemoval_spec (st : Registry UserInfo RoomState) (roomId : String)
    (userId : Int) (room : Room UserInfo RoomState)
    (hroom : mget st roomId = some room)
    (hnodup : (room.players.map Prod.fst).Nodup)
    (hmem : (mget room.players userId).isSome = true)
    (howner : room.ownerId = userId)
    (hsize : 2 ≤ room.players.length) :
    (removePlayerFromRoom st roomId userId).1 = true ∧
    ∃ room', mget (removePlayerFromRoom st roomId userId).2 roomId = some room' ∧
      room'.players = mdelete room.players userId ∧
      ((mdelete room.players userId).map Prod.fst).head? = some room'.ownerId ∧
      isRoomOwner (removePlayerFromRoom st roomId userId).2 roomId userId = false ∧
      (∃! u, (mget room'.players u).isSome = true ∧
        isRoomOwner (removePlayerFromRoom st roomId userId).2 roomId u = true) := by
  rcases hplayers : mdelete room.players userId with _ | ⟨⟨k₀, v₀⟩, tail⟩
  · exfalso
    have := length_mdelete_of_isSome room.players userId hmem
    rw [hplayers] at this
    simp at this
    omega
  · rw [removePlayerFromRoom_ownerLeft st roomId userId room k₀ v₀ tail hroom hmem
      hplayers howner]
    have hnone : mget ((k₀, v₀) :: tail) userId = none := by
      rw [← hplayers]
      exact mget_mdelete_self room.players userId hnodup
    have hk₀ : k₀ ≠ userId := by
      intro hh
      rw [mget, if_pos hh] at hnone
      exact Option.noConfusion hnone
    refine ⟨rfl, { room with players := (k₀, v₀) :: tail, ownerId := k₀ },
      mget_mset_self st roomId _, rfl, rfl, ?_, ?_⟩
    · show isRoomOwner (mset st roomId _) roomId userId = false
      rw [isRoomOwner, mget_mset_self]
      exact decide_eq_false hk₀
    · refine ⟨k₀, ⟨?_, ?_⟩, ?_⟩
      · show (mget ((k₀, v₀) :: tail) k₀).isSome = true
        rw [mget, if_pos rfl]
        rfl
      · show isRoomOwner (mset st roomId _) roomId k₀ = true
        rw [isRoomOwner, mget_mset_self]
        exact decide_eq_true rfl
      · rintro u ⟨hu1, hu2⟩
        rw [isRoomOwner, mget_mset_self] at hu2
        exact (of_decide_eq_true hu2).symm

theorem ownerRemoval_spec_witness :
    (removePlayerFromRoom
      (run () [Op.createRoom sampleOptions 0, Op.addPlayerToRoom "r1" 2 20 "c2"])
      "r1" 1).1 = true ∧
    isRoomOwner (removePlayerFromRoom
      (run () [Op.createRoom sampleOptions 0, Op.addPlayerToRoom "r1" 2 20 "c2"])
      "r1" 1).2 "r1" 1 = false := by
  obtain ⟨h1, room', hroom', hplayers', hhead, hnotowner, hunique⟩ :=
    ownerRemoval_spec
      (run () [Op.createRoom sampleOptions 0, Op.addPlayerToRoom "r1" 2 20 "c2"])
      "r1" 1
      { newRoom sampleOptions () 0 with
        players := mset (newRoom sampleOptions () 0).players 2 ⟨20, "c2", false⟩ }
      (by decide) (by decide) (by decide) (by decide) (by decide)
  exact ⟨h1, hnotowner⟩

/-- C8: `cleanupEmptyRooms` on a registry in which every room has at least
one player is a no-op leaving every entry unchanged; in general (given the
distinct keys a JS `Map` guarantees) it deletes exactly the rooms whose
`players` map is empty and no others. -/
theorem cleanupEmptyRooms_spec (st : Registry UserInfo RoomState) :
    ((∀ p ∈ st, p.2.players ≠ []) → cleanupEmptyRooms st = st) ∧
    (KeysNodup st →
      cleanupEmptyRooms st = st.filter (fun p => !(p.2.players.length == 0))) := by
  constructor
  · intro h
    rw [cleanupEmptyRooms_eq_foldl]
    have hempty : st.filter (fun p => p.2.players.length == 0) = [] := by
      rw [List.filter_eq_nil_iff]
      intro p hp
      simp only [beq_iff_eq, List.length_eq_zero]
      exact h p hp
    rw [hempty]
    rfl
  · intro hnd
    rw [cleanupEmptyRooms_eq_foldl]
    exact cleanup_filter_aux st hnd

theorem cleanupEmptyRooms_spec_witness :
    cleanupEmptyRooms (run () sampleOps) = run () sampleOps :=
  (cleanupEmptyRooms_spec (run () sampleOps)).1 (by decide)

/-- C9: `getRoomByUserId` returns the first room, in the registry's
iteration order, whose `players` map contains `userId`, and returns `none`
when no registered room contains `userId`.  (In the embedding the query is
a pure function of the registry, so it cannot mutate it.) -/
theorem getRoomByUserId_spec (st : Registry UserInfo RoomState) (userId : Int) :
    getRoomByUserId st userId =
      (st.find? (fun p => (mget p.2.players userId).isSome)).map Prod.snd ∧
    (getRoomByUserId st userId = none ↔ ∀ p ∈ st, mget p.2.players userId = none) := by
  have h1 : getRoomByUserId st userId =
      (st.find? (fun p => (mget p.2.players userId).isSome)).map Prod.snd := by
    induction st with
    | nil => rfl
    | cons q rest ih =>
      obtain ⟨k, r⟩ := q
      by_cases hmem : (mget r.players userId).isSome = true
      · have hgr : getRoomByUserId ((k, r) :: rest) userId = some r := by
          simp [getRoomByUserId, hmem]
        have hfind : List.find? (fun p => (mget p.2.players userId).isSome)
            ((k, r) :: rest) = some (k, r) := by
          simp [List.find?, hmem]
        rw [hgr, hfind]
        rfl
      · have hnone : mget r.players userId = none := by
          rcases hx : mget r.players userId with _ | v
          · rfl
          · rw [hx] at hmem
            exact absurd rfl hmem
        have hgr : getRoomByUserId ((k, r) :: rest) userId =
            getRoomByUserId rest userId := by
          simp [getRoomByUserId, hnone]
        have hfind : List.find? (fun p => (mget p.2.players userId).isSome)
            ((k, r) :: rest) =
            List.find? (fun p => (mget p.2.players userId).isSome) rest := by
          simp [List.find?, hnone]
        rw [hgr, hfind, ih]
  refine ⟨h1, ?_⟩
  have h2 : ∀ (l : Registry UserInfo RoomState),
      (getRoomByUserId l userId = none ↔ ∀ p ∈ l, mget p.2.players userId = none) := by
    intro l
    induction l with
    | nil => simp [getRoomByUserId]
    | cons q rest ih =>
      obtain ⟨k, r⟩ := q
      by_cases hmem : (mget r.players userId).isSome = true
      · have hgr : getRoomByUserId ((k, r) :: rest) userId = some r := by
          simp [getRoomByUserId, hmem]
        rw [hgr]
        constructor
        · intro h
          exact Option.noConfusion h
        · intro h
          have hkr := h (k, r) (List.mem_cons_self _ _)
          rw [hkr] at hmem
          exact Bool.noConfusion hmem
      · have hnone : mget r.players userId = none := by
          rcases hx : mget r.players userId with _ | v
          · rfl
          · rw [hx] at hmem
            exact absurd rfl hmem
        have hgr : getRoomByUserId ((k, r) :: rest) userId =
            getRoomByUserId rest userId := by
          simp [getRoomByUserId, hnone]
        rw [hgr, ih]
        constructor
        · intro h p hp
          rcases List.mem_cons.mp hp with heq | hp'
          · rw [heq]
            exact hnone
          · exact h p hp'
        · intro h p hp
          exact h p (List.mem_cons_of_mem _ hp)
  exact h2 st

theorem getRoomByUserId_spec_witness :
    getRoomByUserId (run () sampleOps) 99 = none :=
  (getRoomByUserId_spec (run () sampleOps) 99).2.mpr (by decide)

/-- C10: re-adding a player who is already a member of a full or locked
room is rejected: `addPlayerToRoom` returns `false` and the member's
stored user info, connection id and ready flag are unchanged, because the
capacity and lock checks run before the existing-member overwrite. -/
theorem readdRejected_spec (st : Registry UserInfo RoomState) (roomId : String)
    (userId : Int) (userInfo : UserInfo) (connectionId : String)
    (room : Room UserInfo RoomState) (pi : PlayerInfo UserInfo)
    (hroom : mget st roomId = some room)
    (hpi : mget room.players userId = some pi)
    (hfl : (room.players.length : Int) ≥ room.maxPlayers ∨ room.locked = true) :
    addPlayerToRoom st roomId userId userInfo connectionId = (false, st) ∧
    ∃ room', mget (addPlayerToRoom st roomId userId userInfo connectionId).2 roomId =
        some room' ∧
      mget room'.players userId = some pi := by
  have hfalse : addPlayerToRoom st roomId userId userInfo connectionId = (false, st) := by
    rcases hfl with hf | hl
    · exact addPlayerToRoom_full st roomId userId userInfo connectionId room hroom hf
    · exact addPlayerToRoom_locked st roomId userId userInfo connectionId room hroom hl
  refine ⟨hfalse, room, ?_, hpi⟩
  rw [hfalse]
  exact hroom

theorem readdRejected_spec_witness :
    addPlayerToRoom
      (run () [Op.createRoom sampleOptions 0, Op.addPlayerToRoom "r1" 2 20 "c2"])
      "r1" 1 11 "c9" =
      (false,
        run () [Op.createRoom sampleOptions 0, Op.addPlayerToRoom "r1" 2 20 "c2"]) := by
  obtain ⟨h1, _⟩ :=
    readdRejected_spec
      (run () [Op.createRoom sampleOptions 0, Op.addPlayerToRoom "r1" 2 20 "c2"])
      "r1" 1 11 "c9"
      { newRoom sampleOptions () 0 with
        players := mset (newRoom sampleOptions () 0).players 2 ⟨20, "c2", false⟩ }
      ⟨10, "c1", false⟩
      (by decide) (by decide) (Or.inl (by decide))
  exact h1

end Claims

end PhiraMP
